import Mathlib

/-!
Verification development for the SLUSD website crawler
(files web_crawler_regex.py and web_crawler_regex_fast_juniper.py).

The crawler's pure core (address-pattern matching, PDF page-text
accumulation, CSV findings store) is embedded directly; the effectful
crawl loop (crawl_site) is embedded as a step function over an explicit
state, with the network, the HTML parser and the PDF reader supplied as
oracle functions in a `World` record.  Python regular expressions used by
the two scripts employ only literals, case-insensitive letters, runs of
whitespace, optional groups, one alternation and a trailing negative
lookahead, all of which are modelled exactly by a small regex datatype
with Python's backtracking preference order.
-/

/-! ## Characters

Case-insensitive matching (re.IGNORECASE) is modelled by ASCII case
folding on code points, which is exact for every character appearing in
the crawler's patterns. -/

/-- ASCII case folding on code points: upper-case letters are shifted to
their lower-case code, everything else is untouched. -/
def lowCode (c : Char) : Nat :=
  if 65 ≤ c.toNat ∧ c.toNat ≤ 90 then c.toNat + 32 else c.toNat

/-- Case-insensitive character comparison, as used by `re.IGNORECASE`. -/
def charMatches (c d : Char) : Bool :=
  lowCode c == lowCode d

/-- Python's `\s` on the ASCII range: space, tab, newline, carriage
return, vertical tab, form feed. -/
def isSpaceChar (c : Char) : Bool :=
  c == ' ' || c == '\t' || c == '\n' || c == '\r' || c == '\x0b' || c == '\x0c'

/-- Python's `\w` on the ASCII range: letters, digits and underscore. -/
def isWordChar (c : Char) : Bool :=
  c.isAlphanum || c == '_'

/-- Whether the first list is an initial segment of the second
(case-sensitive, as Python's `in` and `endswith`). -/
def isPrefixChars : List Char → List Char → Bool
  | [], _ => true
  | _ :: _, [] => false
  | a :: as, b :: bs => a == b && isPrefixChars as bs

/-- Whether `needle` occurs contiguously inside `hay`; Python's
`needle in hay` on strings. -/
def containsSub (needle : List Char) : List Char → Bool
  | [] => isPrefixChars needle []
  | c :: t => isPrefixChars needle (c :: t) || containsSub needle t

/-- Python's `str.lower()` (ASCII letters only, which is all the crawler
compares). -/
def strLower (s : String) : String :=
  String.mk (s.data.map fun c => Char.ofNat (lowCode c))

/-- Whether `suf` is a final segment of `l`. -/
def isSuffixChars (suf l : List Char) : Bool :=
  isPrefixChars suf.reverse l.reverse

/-- `link.lower().endswith('.pdf')` from crawl_site's link discovery. -/
def endsWithPdf (link : String) : Bool :=
  isSuffixChars ".pdf".data (strLower link).data

/-- `needle` occurs contiguously in `hay` (propositional form). -/
def occursIn (needle hay : List Char) : Prop :=
  ∃ s t, hay = s ++ needle ++ t

/-- `w` starts with `lit`. -/
def beginsWith (lit w : List Char) : Prop :=
  ∃ t, w = lit ++ t

/-! ## Regular expressions

The exact constructs appearing in `address_patterns` of both scripts:
literal characters (case-insensitive), concatenation, alternation,
optional groups (`?`), runs of a character class (`\s*`), plus one
trailing negative lookahead `(?!\w)` kept separate in `Pattern`. -/

inductive Regex where
  | eps : Regex
  | ch : Char → Regex
  | cat : Regex → Regex → Regex
  | alt : Regex → Regex → Regex
  | opt : Regex → Regex
  | starCls : (Char → Bool) → Regex

/-- Length of the longest prefix of `cs` consisting of characters
satisfying `p`. -/
def leadCount (p : Char → Bool) : List Char → Nat
  | [] => 0
  | c :: cs => if p c then leadCount p cs + 1 else 0

/-- Remainders of a greedy `\s*` run, longest run consumed first
(Python's preference order): the continuation `k` is invoked on
`cs.drop n`, `cs.drop (n-1)`, ..., `cs.drop 0`. -/
def starK (cs : List Char) (k : List Char → List Nat) : Nat → List Nat
  | 0 => k cs
  | n + 1 => k (cs.drop (n + 1)) ++ starK cs k n

/-- Continuation-passing matcher: for every way `re` matches a prefix of
`cs`, in Python's backtracking preference order, invoke `k` on the
remainder and concatenate the answers. -/
def Regex.lensK : Regex → List Char → (List Char → List Nat) → List Nat
  | .eps, cs, k => k cs
  | .ch _, [], _ => []
  | .ch c, d :: cs, k => if charMatches c d then k cs else []
  | .cat r1 r2, cs, k => r1.lensK cs (fun rest => r2.lensK rest k)
  | .alt r1 r2, cs, k => r1.lensK cs k ++ r2.lensK cs k
  | .opt r, cs, k => r.lensK cs k ++ k cs
  | .starCls p, cs, k => starK cs k (leadCount p cs)

/-- All lengths of prefixes of `cs` matched by the regex, in Python's
backtracking preference order (first element = the match `re` would
commit to first). -/
def Regex.matchLens (re : Regex) (cs : List Char) : List Nat :=
  re.lensK cs (fun rest => [cs.length - rest.length])

/-- A compiled pattern: the core regex plus the optional trailing
negative lookahead `(?!\w)`. -/
structure Pattern where
  re : Regex
  negNext : Option (Char → Bool)

/-- The trailing negative lookahead holds at the rest of the input. -/
def negOk : Option (Char → Bool) → List Char → Bool
  | none, _ => true
  | some _, [] => true
  | some p, c :: _ => !(p c)

/-- First candidate length at this position whose lookahead succeeds
(Python backtracks through the preference order until the lookahead is
satisfied). -/
def tryAt (p : Pattern) (cs : List Char) : Option Nat :=
  (p.re.matchLens cs).find? (fun l => negOk p.negNext (cs.drop l))

/-- Scan positions left to right; `i` is the index of the head of `cs`
in the original text. -/
def searchAux (p : Pattern) : Nat → List Char → Option (Nat × Nat)
  | i, cs =>
    match tryAt p cs with
    | some l => some (i, l)
    | none =>
      match cs with
      | [] => none
      | _ :: cs' => searchAux p (i + 1) cs'

/-- `pattern.search(text)`: leftmost match, returned as (start, length). -/
def Pattern.search (p : Pattern) (cs : List Char) : Option (Nat × Nat) :=
  searchAux p 0 cs

/-- The text of a match `(i, l)` inside `cs` — `match.group()`. -/
def groupOf (cs : List Char) (m : Nat × Nat) : String :=
  String.mk ((cs.drop m.1).take m.2)

/-- The `for i, pattern in enumerate(self.compiled_patterns)` loop of
check_address_in_text: first pattern (in declaration order) with a
match wins. -/
def firstMatch : List Pattern → List Char → Option String
  | [], _ => none
  | p :: ps, cs =>
    match p.search cs with
    | some m => some (groupOf cs m)
    | none => firstMatch ps cs

/-- `SLUSDCrawler.check_address_in_text` of web_crawler_regex.py
(lines 156-170): empty text yields not-found, otherwise the patterns are
evaluated in declaration order and the first match's text is returned. -/
def check_address_in_text (pats : List Pattern) (text : String) : Bool × Option String :=
  if text = "" then (false, none)
  else
    match firstMatch pats text.data with
    | some s => (true, some s)
    | none => (false, none)

/-- `SLUSDCrawler.check_address_in_text` of
web_crawler_regex_fast_juniper.py (lines 176-194): same as the baseline
but with the cheap literal-substring prefilter `self.quick_check`
evaluated before any pattern. -/
def check_address_in_text_fast (quick : String) (pats : List Pattern) (text : String) :
    Bool × Option String :=
  if text = "" then (false, none)
  else if !(containsSub quick.data text.data) then (false, none)
  else
    match firstMatch pats text.data with
    | some s => (true, some s)
    | none => (false, none)

/-! ## The concrete pattern sets of the two scripts -/

/-- Right-nested concatenation of a list of regexes. -/
def cats : List Regex → Regex
  | [] => .eps
  | r :: rs => .cat r (cats rs)

/-- A literal string, one case-insensitive character at a time. -/
def strReL : List Char → Regex
  | [] => .eps
  | c :: cs => .cat (.ch c) (strReL cs)

/-- `\s*` -/
def wsStar : Regex := .starCls isSpaceChar

/-- `\.?` -/
def dotOpt : Regex := .opt (.ch '.')

/-- `St\.?` -/
def stPart : Regex := cats [.ch 'S', .ch 't', dotOpt]

/-- `(?:St\.?|Street)` -/
def streetAlt : Regex := .alt stPart (strReL "Street".data)

/-- The literal house number of web_crawler_regex.py. -/
def lit835 : Regex := strReL "835".data

/-- `14` -/
def lit14 : Regex := strReL "14".data

/-- The literal house number of web_crawler_regex_fast_juniper.py. -/
def lit14735 : Regex := strReL "14735".data

/-- `Juniper` -/
def litJun : Regex := strReL "Juniper".data

/-- `self.address_patterns` of web_crawler_regex.py (lines 28-36),
compiled with re.IGNORECASE, in declaration order. -/
def basePatterns : List Pattern :=
  [ ⟨.cat lit835 (cats [wsStar, .opt (cats [.ch 'E', dotOpt, wsStar]), lit14,
        .ch 't', .opt (.ch 'h'), wsStar, .opt stPart]), some isWordChar⟩,
    ⟨.cat lit835 (cats [wsStar, .ch 'E', dotOpt, wsStar, lit14,
        .ch 't', .opt (.ch 'h'), wsStar, stPart]), none⟩,
    ⟨.cat lit835 (cats [wsStar, .ch 'E', dotOpt, wsStar, lit14, wsStar, stPart]), none⟩,
    ⟨.cat lit835 (cats [wsStar, lit14, .ch 't', .opt (.ch 'h'), wsStar, stPart]), none⟩,
    ⟨.cat lit835 (cats [wsStar, lit14, .ch 't', .opt (.ch 'h')]), some isWordChar⟩,
    ⟨.cat lit835 (cats [wsStar, strReL "East".data, wsStar, lit14,
        .ch 't', .opt (.ch 'h'), wsStar, .opt streetAlt]), none⟩,
    ⟨.cat lit835 (cats [wsStar, .ch 'E', wsStar, lit14]), some isWordChar⟩ ]

/-- `self.address_patterns` of web_crawler_regex_fast_juniper.py
(lines 28-36), compiled with re.IGNORECASE, in declaration order. -/
def juniperPatterns : List Pattern :=
  [ ⟨.cat lit14735 (cats [wsStar, litJun, wsStar, .opt streetAlt]), some isWordChar⟩,
    ⟨.cat lit14735 (cats [wsStar, litJun, wsStar, stPart]), none⟩,
    ⟨.cat lit14735 (cats [wsStar, litJun, wsStar, strReL "Street".data]), none⟩,
    ⟨.cat lit14735 (cats [wsStar, litJun]), some isWordChar⟩,
    ⟨.cat lit14735 (cats [wsStar, .opt (cats [.ch 'N', dotOpt, wsStar]), litJun,
        wsStar, .opt streetAlt]), none⟩,
    ⟨.cat lit14735 (cats [wsStar, strReL "North".data, wsStar, litJun,
        wsStar, .opt streetAlt]), none⟩,
    ⟨.cat lit14735 (cats [wsStar, .ch 'N', wsStar, litJun]), some isWordChar⟩ ]

/-! ## PDF page-text extraction

A downloaded, decoded PDF is modelled as its list of pages, each page
being the outcome of `page.extract_text()`: `Except.ok text` when
extraction succeeds, `Except.error ()` when it raises.  Both variants
catch the per-page exception and `continue`. -/

/-- The `text_content` accumulation loop of `check_pdf_content` in
web_crawler_regex.py (lines 182-187): pages whose extraction raises are
skipped, the rest are concatenated in page order. -/
def extractConcat : List (Except Unit String) → String
  | [] => ""
  | .ok t :: ps => t ++ extractConcat ps
  | .error _ :: ps => extractConcat ps

/-- `check_pdf_content` of web_crawler_regex.py after the download
succeeded (lines 178-190): match the concatenation of all
successfully-extracted pages. -/
def check_pdf_pages_base (pages : List (Except Unit String)) : Bool × Option String :=
  check_address_in_text basePatterns (extractConcat pages)

/-- `check_pdf_content` of web_crawler_regex_fast_juniper.py after the
download succeeded (lines 214-227): check each page separately (with the
quick literal pre-check) and return as soon as one page matches; pages
whose extraction raises are skipped. -/
def check_pdf_pages_fast : List (Except Unit String) → Bool × Option String
  | [] => (false, none)
  | .error _ :: ps => check_pdf_pages_fast ps
  | .ok t :: ps =>
    if containsSub "14735".data t.data then
      match check_address_in_text_fast "14735" juniperPatterns t with
      | (true, mt) => (true, mt)
      | (false, _) => check_pdf_pages_fast ps
    else check_pdf_pages_fast ps

/-! ## The durable findings store (CSV file)

The file system as seen by `init_csv_file` / `append_to_csv`: `none` if
the findings file does not exist, otherwise the list of its rows. -/

/-- The CSV header of both scripts. -/
def headerRow : List String :=
  ["URL", "Type", "Title", "Address Found", "Notes", "Parent Page", "Timestamp"]

/-- `SLUSDCrawler.init_csv_file` (web_crawler_regex.py lines 53-59):
write the header row only if the file does not exist. -/
def init_csv_file : Option (List (List String)) → Option (List (List String))
  | none => some [headerRow]
  | some f => some f

/-- `SLUSDCrawler.append_to_csv` (web_crawler_regex.py lines 61-66):
open in append mode (creating the file if absent) and append one row. -/
def append_to_csv (row : List String) : Option (List (List String)) → Option (List (List String))
  | none => some [row]
  | some f => some (f ++ [row])

/-- Number of rows of the findings file. -/
def rowCount : Option (List (List String)) → Nat
  | none => 0
  | some f => f.length

/-- One crawler run as seen by the findings file: the constructor calls
`init_csv_file`, then each recorded finding is appended. -/
def crawler_run (rows : List (List String)) (fs : Option (List (List String))) :
    Option (List (List String)) :=
  rows.foldl (fun s r => append_to_csv r s) (init_csv_file fs)

/-- A sequence of crawler runs against the same findings file. -/
def crawler_runs (runs : List (List (List String))) (fs : Option (List (List String))) :
    Option (List (List String)) :=
  runs.foldl (fun s rows => crawler_run rows s) fs

/-! ## The crawl loop

`crawl_site` is embedded as a step function on an explicit state.  The
network, the HTML parser and the PDF reader are oracle functions in
`World`; everything else (queue discipline, dedup, counting, the findings
and checkpoint writes, the inter-request sleep, the interrupt) follows
the code of web_crawler_regex.py lines 224-303 (the fast variant differs
only in the extra skip-filter, carried here as the oracle `skip`, its
matcher functions and its sleep duration). -/

/-- A recorded finding (the CSV row fields except the wall-clock
timestamp). -/
structure Finding where
  url : String
  kind : String
  matched : String
  title : String
  notes : String
  parent : String
deriving DecidableEq

/-- Observable events of one run, in order. -/
inductive Ev where
  | dequeue : String → Ev
  | skipVisited : String → Ev
  | record : Finding → Ev
  | save : Nat → String → Ev
  | sleep : Ev
  | summary : Ev
deriving DecidableEq

/-- Crawler state: the pending queue, the visited set, the page counter
and the findings recorded so far. -/
structure CState where
  queue : List String
  visited : List String
  pagesCrawled : Nat
  findings : List Finding
deriving DecidableEq

/-- The crawler's environment: configuration plus oracles for every
effectful collaborator.  `interruptAt = some k` delivers a
KeyboardInterrupt while the k-th dequeued URL is being fetched. -/
structure World where
  baseUrl : String
  maxPages : Nat
  interruptAt : Option Nat
  fetchResult : String → Option (String × String)
  parseOk : String → Bool
  textOf : String → String
  titleOf : String → Option String
  linksOf : String → String → List String
  isValid : String → Bool
  skip : String → Bool
  checkText : String → Bool × Option String
  checkPdfUrl : String → Bool × Option String

/-- `'pdf' in content_type.lower()` -/
def ctIsPdf (ct : String) : Bool :=
  containsSub "pdf".data (strLower ct).data

/-- The `for link in links` loop of crawl_site (web_crawler_regex.py
lines 280-293): each link that is in scope, not skipped, not visited and
not already queued is either handled immediately as a leaf PDF (recorded
with the current page as parent, never enqueued) or appended to the
queue. `qAcc` is the live queue the membership test runs against. -/
def processLinks (w : World) (parent : String) (visited : List String) :
    List String → List String → List Finding → List String × List Finding
  | [], qAcc, fAcc => (qAcc, fAcc)
  | link :: ls, qAcc, fAcc =>
    if w.isValid link && !(w.skip link) && !(visited.contains link) && !(qAcc.contains link) then
      if endsWithPdf link then
        if (w.checkPdfUrl link).1 then
          processLinks w parent visited ls qAcc
            (fAcc ++ [⟨link, "PDF", (w.checkPdfUrl link).2.getD "", "",
                       "PDF document (linked)", parent⟩])
        else
          processLinks w parent visited ls qAcc fAcc
      else
        processLinks w parent visited ls (qAcc ++ [link]) fAcc
    else
      processLinks w parent visited ls qAcc fAcc

/-- Result of one iteration of the `while` loop. -/
inductive StepRes where
  | done : StepRes
  | interrupted : CState → List Ev → StepRes
  | cont : CState → List Ev → StepRes
deriving DecidableEq

/-- The body of the `try:` block for a fresh URL `u` (web_crawler_regex.py
lines 251-300).  `s1` already has `u` marked visited and counted; `evs0`
holds the dequeue event and the periodic checkpoint, if any.  Note that
every `continue` inside the `try` block jumps past the final
`time.sleep`, so only the full HTML path emits `Ev.sleep`. -/
def processFresh (w : World) (u : String) (s1 : CState) (evs0 : List Ev) : StepRes :=
  match w.fetchResult u with
  | none => .cont s1 evs0
  | some (html, ct) =>
    if html = "" then .cont s1 evs0
    else if ctIsPdf ct then
      if (w.checkPdfUrl u).1 then
        let f : Finding := ⟨u, "PDF", (w.checkPdfUrl u).2.getD "", "",
                            "PDF document (direct access)", ""⟩
        .cont { s1 with findings := s1.findings ++ [f] } (evs0 ++ [.record f])
      else .cont s1 evs0
    else if w.parseOk html then
      let res := w.checkText (w.textOf html)
      let fs1 : List Finding :=
        if res.1 then
          [⟨u, "HTML Page", res.2.getD "", (w.titleOf html).getD "No title",
            "HTML page content", ""⟩]
        else []
      let lr := processLinks w u s1.visited (w.linksOf html u) s1.queue []
      .cont { s1 with queue := lr.1, findings := s1.findings ++ fs1 ++ lr.2 }
        (evs0 ++ (fs1 ++ lr.2).map .record ++ [.sleep])
    else .cont s1 evs0

/-- One iteration of `while url_queue and pages_crawled < max_pages`
(web_crawler_regex.py lines 236-300). -/
def stepOnce (w : World) (s : CState) : StepRes :=
  match s.queue with
  | [] => .done
  | u :: rest =>
    if s.pagesCrawled < w.maxPages then
      if u ∈ s.visited then .cont { s with queue := rest } [.skipVisited u]
      else
        let s1 : CState := ⟨rest, u :: s.visited, s.pagesCrawled + 1, s.findings⟩
        let evs0 := [Ev.dequeue u] ++
          (if s1.pagesCrawled % 50 = 0 then [Ev.save s1.pagesCrawled u] else [])
        if w.interruptAt = some s1.pagesCrawled then .interrupted s1 evs0
        else processFresh w u s1 evs0
    else .done

/-- How a run ended. -/
inductive Outcome where
  | completed : Outcome
  | interrupted : Outcome
  | fuelOut : Outcome
deriving DecidableEq

/-- A finished (or fuel-exhausted) run. -/
structure RunRes where
  state : CState
  evs : List Ev
  outcome : Outcome

/-- Iterate `stepOnce`.  A raised KeyboardInterrupt aborts the loop. -/
def run (w : World) : Nat → CState → RunRes
  | 0, s => ⟨s, [], .fuelOut⟩
  | n + 1, s =>
    match stepOnce w s with
    | .done => ⟨s, [], .completed⟩
    | .interrupted s' evs => ⟨s', evs, .interrupted⟩
    | .cont s' evs =>
      let r := run w n s'
      ⟨r.state, evs ++ r.evs, r.outcome⟩

/-- The states a run passes through, in order. -/
def runStates (w : World) : Nat → CState → List CState
  | 0, s => [s]
  | n + 1, s =>
    s :: match stepOnce w s with
    | .done => []
    | .interrupted s' _ => [s']
    | .cont s' _ => runStates w n s'

/-- The initial state of `crawl_site`: the queue holds the base URL. -/
def initState (w : World) : CState := ⟨[w.baseUrl], [], 0, []⟩

/-- `crawl_site` (web_crawler_regex.py lines 224-303): run the loop; on
normal completion write the final `save_progress(pages_crawled,
"COMPLETED")`.  A KeyboardInterrupt is not an `Exception`, so it
propagates out before that final write. -/
def crawl_site (w : World) (fuel : Nat) (s : CState) : RunRes :=
  let r := run w fuel s
  match r.outcome with
  | .completed => ⟨r.state, r.evs ++ [.save r.state.pagesCrawled "COMPLETED"], .completed⟩
  | o => ⟨r.state, r.evs, o⟩

/-- `main` (web_crawler_regex.py lines 337-353): run `crawl_site` from
the initial state; both on normal return and on a caught
KeyboardInterrupt, print the summary and return normally. -/
def mainEvents (w : World) (fuel : Nat) : List Ev :=
  let r := crawl_site w fuel (initState w)
  r.evs ++ [.summary]

/-- The URLs dequeued for processing, in order. -/
def dequeuedUrls : List Ev → List String
  | [] => []
  | .dequeue u :: evs => u :: dequeuedUrls evs
  | _ :: evs => dequeuedUrls evs

/-- Whether a sleep event separates every pair of consecutive dequeue
events (the flag records that a dequeue has been seen with no sleep
since). -/
def sleepSep : Bool → List Ev → Bool
  | _, [] => true
  | _, Ev.sleep :: evs => sleepSep false evs
  | pending, Ev.dequeue _ :: evs => if pending then false else sleepSep true evs
  | pending, _ :: evs => sleepSep pending evs

/-- Checkpoint-write events. -/
def isSaveEv : Ev → Bool
  | .save _ _ => true
  | _ => false

/-! ## Concrete test environments -/

/-- The linked PDF of the end-to-end scenario: page 2 carries the target
address. -/
def scenPdfPages : List (Except Unit String) :=
  [.ok "page one", .ok "835 E. 14th St, San Leandro"]

/-- End-to-end environment for the baseline crawler: the root page links
to one PDF whose text contains the target address; the root page's own
text does not. -/
def w6 : World where
  baseUrl := "https://www.slusd.us"
  maxPages := 5000
  interruptAt := none
  fetchResult := fun u =>
    if u = "https://www.slusd.us" then some ("ROOTHTML", "text/html") else none
  parseOk := fun h => h == "ROOTHTML"
  textOf := fun _ => "Welcome to SLUSD"
  titleOf := fun _ => some "Home"
  linksOf := fun h _ => if h == "ROOTHTML" then ["https://www.slusd.us/doc.pdf"] else []
  isValid := fun _ => true
  skip := fun _ => false
  checkText := check_address_in_text basePatterns
  checkPdfUrl := fun u =>
    if u = "https://www.slusd.us/doc.pdf" then check_pdf_pages_base scenPdfPages
    else (false, none)

/-- The PDF finding the end-to-end scenario must produce. -/
def scenFinding : Finding :=
  ⟨"https://www.slusd.us/doc.pdf", "PDF", "835 E. 14th St", "",
   "PDF document (linked)", "https://www.slusd.us"⟩

/-- Environment for the rate-limiting counterexample: the root links to
`a` and `b`; fetching `a` fails, so its iteration ends in `continue` and
skips the sleep. -/
def w9 : World where
  baseUrl := "r"
  maxPages := 100
  interruptAt := none
  fetchResult := fun u =>
    if u = "r" then some ("RH", "text/html")
    else if u = "b" then some ("BH", "text/html")
    else none
  parseOk := fun h => h == "RH" || h == "BH"
  textOf := fun _ => "w"
  titleOf := fun _ => none
  linksOf := fun h _ => if h == "RH" then ["a", "b"] else []
  isValid := fun _ => true
  skip := fun _ => false
  checkText := check_address_in_text basePatterns
  checkPdfUrl := fun _ => (false, none)

/-- Environment for the interruption scenario: the interrupt is
delivered while the first dequeued URL is being fetched. -/
def w4 : World where
  baseUrl := "r"
  maxPages := 100
  interruptAt := some 1
  fetchResult := fun _ => some ("RH", "text/html")
  parseOk := fun _ => true
  textOf := fun _ => "w"
  titleOf := fun _ => none
  linksOf := fun _ _ => []
  isValid := fun _ => true
  skip := fun _ => false
  checkText := check_address_in_text basePatterns
  checkPdfUrl := fun _ => (false, none)

/-! ## Declarative regex semantics

Used to state what it means for a match's text to "match one of the
configured patterns" independently of the executable matcher. -/

/-- The language of a regex: `Accepts re w` holds when the word `w` is
matched (in full) by `re`. -/
inductive Accepts : Regex → List Char → Prop where
  | eps : Accepts .eps []
  | ch {c d : Char} : charMatches c d = true → Accepts (.ch c) [d]
  | cat {r1 r2 : Regex} {w1 w2 : List Char} :
      Accepts r1 w1 → Accepts r2 w2 → Accepts (.cat r1 r2) (w1 ++ w2)
  | altL {r1 r2 : Regex} {w : List Char} : Accepts r1 w → Accepts (.alt r1 r2) w
  | altR {r1 r2 : Regex} {w : List Char} : Accepts r2 w → Accepts (.alt r1 r2) w
  | optSome {r : Regex} {w : List Char} : Accepts r w → Accepts (.opt r) w
  | optNone {r : Regex} : Accepts (.opt r) []
  | starCls {p : Char → Bool} {w : List Char} :
      (∀ c ∈ w, p c = true) → Accepts (.starCls p) w

/-! # Theorems

## Soundness of the executable matcher with respect to `Accepts` -/

theorem starK_mem {cs : List Char} {k : List Char → List Nat} {x : Nat} :
    ∀ {n : Nat}, x ∈ starK cs k n → ∃ m, m ≤ n ∧ x ∈ k (cs.drop m) := by
  intro n
  induction n with
  | zero => intro h; exact ⟨0, Nat.le_refl 0, by simpa using h⟩
  | succ n ih =>
    intro h
    rcases List.mem_append.1 h with h1 | h2
    · exact ⟨n + 1, Nat.le_refl _, h1⟩
    · obtain ⟨m, hm, hx⟩ := ih h2
      exact ⟨m, Nat.le_succ_of_le hm, hx⟩

theorem leadCount_take {p : Char → Bool} :
    ∀ {cs : List Char} {m : Nat}, m ≤ leadCount p cs → ∀ c ∈ cs.take m, p c = true := by
  intro cs
  induction cs with
  | nil => intro m _ c hc; simp at hc
  | cons a as ih =>
    intro m hm c hc
    cases m with
    | zero => simp at hc
    | succ m =>
      by_cases hp : p a
      · rw [leadCount, if_pos hp] at hm
        rcases (List.mem_cons).1 (by simpa using hc) with rfl | htail
        · exact hp
        · exact ih (Nat.le_of_succ_le_succ hm) c htail
      · rw [leadCount, if_neg hp] at hm
        omega

theorem lensK_sound :
    ∀ (re : Regex) {cs : List Char} {k : List Char → List Nat} {x : Nat},
      x ∈ re.lensK cs k → ∃ w rest, cs = w ++ rest ∧ Accepts re w ∧ x ∈ k rest := by
  intro re
  induction re with
  | eps =>
    intro cs k x h
    exact ⟨[], cs, rfl, .eps, h⟩
  | ch c =>
    intro cs k x h
    cases cs with
    | nil => simp [Regex.lensK] at h
    | cons d cs' =>
      rw [Regex.lensK] at h
      by_cases hc : charMatches c d
      · rw [if_pos hc] at h
        exact ⟨[d], cs', rfl, .ch hc, h⟩
      · rw [if_neg hc] at h; simp at h
  | cat r1 r2 ih1 ih2 =>
    intro cs k x h
    rw [Regex.lensK] at h
    obtain ⟨w1, rest1, hcs, acc1, hx1⟩ := ih1 h
    obtain ⟨w2, rest2, hrest, acc2, hx2⟩ := ih2 hx1
    exact ⟨w1 ++ w2, rest2, by rw [hcs, hrest, List.append_assoc], .cat acc1 acc2, hx2⟩
  | alt r1 r2 ih1 ih2 =>
    intro cs k x h
    rw [Regex.lensK] at h
    rcases List.mem_append.1 h with h1 | h2
    · obtain ⟨w, rest, hcs, acc, hx⟩ := ih1 h1
      exact ⟨w, rest, hcs, .altL acc, hx⟩
    · obtain ⟨w, rest, hcs, acc, hx⟩ := ih2 h2
      exact ⟨w, rest, hcs, .altR acc, hx⟩
  | opt r ih =>
    intro cs k x h
    rw [Regex.lensK] at h
    rcases List.mem_append.1 h with h1 | h2
    · obtain ⟨w, rest, hcs, acc, hx⟩ := ih h1
      exact ⟨w, rest, hcs, .optSome acc, hx⟩
    · exact ⟨[], cs, rfl, .optNone, h2⟩
  | starCls p =>
    intro cs k x h
    rw [Regex.lensK] at h
    obtain ⟨m, hm, hx⟩ := starK_mem h
    refine ⟨cs.take m, cs.drop m, (List.take_append_drop m cs).symm,
      .starCls (leadCount_take hm), hx⟩

theorem matchLens_sound {re : Regex} {cs : List Char} {l : Nat} :
    l ∈ re.matchLens cs → ∃ w rest, cs = w ++ rest ∧ Accepts re w ∧ l = w.length := by
  intro h
  rw [Regex.matchLens] at h
  obtain ⟨w, rest, hcs, acc, hx⟩ := lensK_sound re h
  refine ⟨w, rest, hcs, acc, ?_⟩
  have hlen : cs.length = w.length + rest.length := by rw [hcs, List.length_append]
  have : l = cs.length - rest.length := by simpa using hx
  omega

theorem tryAt_sound {p : Pattern} {cs : List Char} {l : Nat} :
    tryAt p cs = some l → ∃ w rest, cs = w ++ rest ∧ Accepts p.re w ∧ l = w.length := by
  intro h
  exact matchLens_sound (List.mem_of_find?_eq_some h)

theorem searchAux_sound {p : Pattern} :
    ∀ {cs : List Char} {i j l : Nat}, searchAux p i cs = some (j, l) →
      i ≤ j ∧ ∃ w rest, cs.drop (j - i) = w ++ rest ∧ Accepts p.re w ∧ l = w.length := by
  intro cs
  induction cs with
  | nil =>
    intro i j l h
    rw [searchAux] at h
    cases htry : tryAt p [] with
    | none => rw [htry] at h; simp at h
    | some l0 =>
      rw [htry] at h
      simp only [Option.some.injEq, Prod.mk.injEq] at h
      obtain ⟨rfl, rfl⟩ := h
      obtain ⟨w, rest, hcs, acc, hl⟩ := tryAt_sound htry
      exact ⟨Nat.le_refl _, w, rest, by simpa using hcs, acc, hl⟩
  | cons c cs' ih =>
    intro i j l h
    rw [searchAux] at h
    cases htry : tryAt p (c :: cs') with
    | some l0 =>
      rw [htry] at h
      simp only [Option.some.injEq, Prod.mk.injEq] at h
      obtain ⟨rfl, rfl⟩ := h
      obtain ⟨w, rest, hcs, acc, hl⟩ := tryAt_sound htry
      exact ⟨Nat.le_refl _, w, rest, by simpa using hcs, acc, hl⟩
    | none =>
      rw [htry] at h
      obtain ⟨hij, w, rest, hcs, acc, hl⟩ := ih h
      refine ⟨Nat.le_of_succ_le hij, w, rest, ?_, acc, hl⟩
      have : j - i = (j - (i + 1)) + 1 := by omega
      rw [this, List.drop_succ_cons]
      exact hcs

theorem search_sound {p : Pattern} {cs : List Char} {j l : Nat} :
    p.search cs = some (j, l) →
    ∃ w rest, cs.drop j = w ++ rest ∧ Accepts p.re w ∧ l = w.length := by
  intro h
  obtain ⟨_, w, rest, hcs, acc, hl⟩ := searchAux_sound h
  exact ⟨w, rest, by simpa using hcs, acc, hl⟩

theorem firstMatch_sound :
    ∀ {pats : List Pattern} {cs : List Char} {s : String},
      firstMatch pats cs = some s →
      ∃ p ∈ pats, Accepts p.re s.data ∧ occursIn s.data cs := by
  intro pats
  induction pats with
  | nil => intro cs s h; simp [firstMatch] at h
  | cons p ps ih =>
    intro cs s h
    rw [firstMatch] at h
    cases hs : p.search cs with
    | some m =>
      rw [hs] at h
      simp only [Option.some.injEq] at h
      have hs2 : p.search cs = some (m.1, m.2) := hs
      obtain ⟨w, rest, hcs, acc, hl⟩ := search_sound hs2
      have hw : s.data = w := by
        rw [← h]
        show ((cs.drop m.1).take m.2) = w
        rw [hcs, hl, List.take_left]
      refine ⟨p, List.mem_cons_self p ps, by rw [hw]; exact acc, ?_⟩
      refine ⟨cs.take m.1, rest, ?_⟩
      rw [hw]
      conv_lhs => rw [← List.take_append_drop m.1 cs, hcs]
      rw [List.append_assoc]
    | none =>
      rw [hs] at h
      obtain ⟨q, hq, acc, hocc⟩ := ih h
      exact ⟨q, List.mem_cons_of_mem p hq, acc, hocc⟩

/-! ## Digit literals pin down the head of every matched text -/

theorem char_eq_of_toNat_eq {c d : Char} (h : c.toNat = d.toNat) : c = d := by
  have h2 := congrArg Char.ofNat h
  rwa [Char.ofNat_toNat, Char.ofNat_toNat] at h2

theorem charMatches_digit {c d : Char} (h48 : 48 ≤ c.toNat) (h57 : c.toNat ≤ 57)
    (h : charMatches c d = true) : d = c := by
  have hl : lowCode c = lowCode d := by simpa [charMatches] using h
  rw [lowCode, if_neg (by omega), lowCode] at hl
  by_cases hd : 65 ≤ d.toNat ∧ d.toNat ≤ 90
  · rw [if_pos hd] at hl; omega
  · rw [if_neg hd] at hl
    exact (char_eq_of_toNat_eq hl).symm

theorem strReL_digits :
    ∀ {ds w : List Char}, (∀ c ∈ ds, 48 ≤ c.toNat ∧ c.toNat ≤ 57) →
      Accepts (strReL ds) w → w = ds := by
  intro ds
  induction ds with
  | nil =>
    intro w _ acc
    cases acc; rfl
  | cons c cs ih =>
    intro w hdig acc
    rw [strReL] at acc
    cases acc with
    | cat a1 a2 =>
      cases a1 with
      | ch hm =>
        have hc := hdig c (List.mem_cons_self c cs)
        have : _ = c := charMatches_digit hc.1 hc.2 hm
        rw [this, ih (fun x hx => hdig x (List.mem_cons_of_mem c hx)) a2]
        rfl

theorem cat_lit_begins {ds : List Char} {r : Regex} {w : List Char}
    (hdig : ∀ c ∈ ds, 48 ≤ c.toNat ∧ c.toNat ≤ 57)
    (acc : Accepts (.cat (strReL ds) r) w) : beginsWith ds w := by
  cases acc with
  | cat a1 a2 =>
    rw [strReL_digits hdig a1]
    exact ⟨_, rfl⟩

theorem basePatterns_shape : ∀ p ∈ basePatterns, ∃ r, p.re = .cat lit835 r := by
  intro p hp
  simp only [basePatterns, List.mem_cons, List.not_mem_nil, or_false] at hp
  rcases hp with rfl | rfl | rfl | rfl | rfl | rfl | rfl
  all_goals exact ⟨_, rfl⟩

theorem juniperPatterns_shape : ∀ p ∈ juniperPatterns, ∃ r, p.re = .cat lit14735 r := by
  intro p hp
  simp only [juniperPatterns, List.mem_cons, List.not_mem_nil, or_false] at hp
  rcases hp with rfl | rfl | rfl | rfl | rfl | rfl | rfl
  all_goals exact ⟨_, rfl⟩

/-- Soundness of a full pattern list whose members all start with the
same digit literal. -/
theorem firstMatch_full_sound {pats : List Pattern} {lit : List Char} {cs : List Char}
    {s : String} (hshape : ∀ p ∈ pats, ∃ r, p.re = .cat (strReL lit) r)
    (hdig : ∀ c ∈ lit, 48 ≤ c.toNat ∧ c.toNat ≤ 57) (hne : lit ≠ [])
    (h : firstMatch pats cs = some s) :
    s ≠ "" ∧ occursIn s.data cs ∧ (∃ p ∈ pats, Accepts p.re s.data) ∧
      beginsWith lit s.data ∧ occursIn lit s.data := by
  obtain ⟨p, hp, acc, hocc⟩ := firstMatch_sound h
  obtain ⟨r, hre⟩ := hshape p hp
  rw [hre] at acc
  obtain ⟨t, ht⟩ := cat_lit_begins hdig acc
  constructor
  · intro hs
    rw [hs] at ht
    have : lit = [] := by
      cases List.append_eq_nil.1 ht.symm with
      | intro h1 h2 => exact h1
    exact hne this
  refine ⟨hocc, ⟨p, hp, by rw [hre]; exact acc⟩, ⟨t, ht⟩, ⟨[], t, by rw [ht]; rfl⟩⟩

theorem check_found {pats : List Pattern} {text : String} {s : String}
    (h : check_address_in_text pats text = (true, some s)) :
    firstMatch pats text.data = some s := by
  rw [check_address_in_text] at h
  by_cases ht : text = ""
  · rw [if_pos ht] at h; simp at h
  · rw [if_neg ht] at h
    cases hm : firstMatch pats text.data with
    | some s' =>
      rw [hm] at h
      simpa using h
    | none => rw [hm] at h; simp at h

theorem check_fast_found {quick : String} {pats : List Pattern} {text : String} {s : String}
    (h : check_address_in_text_fast quick pats text = (true, some s)) :
    firstMatch pats text.data = some s := by
  rw [check_address_in_text_fast] at h
  by_cases ht : text = ""
  · rw [if_pos ht] at h; simp at h
  · rw [if_neg ht] at h
    by_cases hq : containsSub quick.data text.data
    · rw [hq] at h
      simp only [Bool.not_true, Bool.false_eq_true, if_false] at h
      cases hm : firstMatch pats text.data with
      | some s' =>
        rw [hm] at h
        simpa using h
      | none => rw [hm] at h; simp at h
    · rw [Bool.not_eq_true] at hq
      rw [hq] at h
      simp at h

/-! ## Claim C1 — prefilter transparency -/

/-- Claim C1: for every text, the prefiltered matcher
(check_address_in_text_fast, the fast variant) returns exactly the same
found/matchedText result as evaluating all patterns directly in order
(check_address_in_text, the baseline algorithm) whenever the quick-check
literal occurs in the text, and returns not-found whenever the literal
is absent.  Stated for an arbitrary literal and pattern list, hence in
particular for quick_check = "14735" with the Juniper pattern set. -/
theorem c1_prefilter_transparency (quick : String) (pats : List Pattern) (text : String) :
    (containsSub quick.data text.data = true →
      check_address_in_text_fast quick pats text = check_address_in_text pats text)
    ∧ (containsSub quick.data text.data = false →
      check_address_in_text_fast quick pats text = (false, none)) := by
  constructor
  · intro h
    rw [check_address_in_text_fast, check_address_in_text]
    by_cases ht : text = ""
    · rw [if_pos ht, if_pos ht]
    · rw [if_neg ht, if_neg ht, h]
      simp
  · intro h
    rw [check_address_in_text_fast]
    by_cases ht : text = ""
    · rw [if_pos ht]
    · rw [if_neg ht, h]
      simp

/-- Witness for C1 at the fast variant's own configuration: a text
containing the literal (and an address) agrees with the direct
evaluation, a text without the literal is rejected by the prefilter. -/
theorem c1_prefilter_transparency_witness :
    check_address_in_text_fast "14735" juniperPatterns "14735 Juniper St"
        = check_address_in_text juniperPatterns "14735 Juniper St"
      ∧ check_address_in_text_fast "14735" juniperPatterns "no address here" = (false, none) :=
  ⟨(c1_prefilter_transparency "14735" juniperPatterns "14735 Juniper St").1 (by decide),
   (c1_prefilter_transparency "14735" juniperPatterns "no address here").2 (by decide)⟩

/-! ## Claim C3 — pattern priority -/

/-- If every pattern before index `j` has no match and pattern `j`
matches at `m`, the first-match loop reports pattern `j`'s match. -/
theorem firstMatch_at :
    ∀ {pats : List Pattern} {cs : List Char} {j : Nat} (hj : j < pats.length) {m : Nat × Nat},
      (∀ p ∈ pats.take j, p.search cs = none) →
      (pats.get ⟨j, hj⟩).search cs = some m →
      firstMatch pats cs = some (groupOf cs m) := by
  intro pats
  induction pats with
  | nil => intro cs j hj; simp at hj
  | cons p ps ih =>
    intro cs j hj m hnone hsearch
    cases j with
    | zero =>
      rw [firstMatch]
      simp only [List.get] at hsearch
      rw [hsearch]
    | succ j =>
      rw [firstMatch]
      have hp : p.search cs = none := hnone p (by simp [List.take_succ_cons])
      rw [hp]
      simp only [List.get] at hsearch
      exact ih (Nat.lt_of_succ_lt_succ hj)
        (fun q hq => hnone q (by simp only [List.take_succ_cons, List.mem_cons]; exact Or.inr hq))
        hsearch

/-- Claim C3: for every text matched by at least one pattern of the
ordered pattern set, check_address_in_text returns found = true and the
matched text of the lowest-index pattern that matches; patterns are
evaluated in declaration order, and since the result is fully determined
by the first matching pattern, no later pattern influences it. -/
theorem c3_pattern_priority (pats : List Pattern) (text : String) (j : Nat)
    (hj : j < pats.length) (m : Nat × Nat) (hne : text ≠ "")
    (hnone : ∀ p ∈ pats.take j, p.search text.data = none)
    (hsearch : (pats.get ⟨j, hj⟩).search text.data = some m) :
    check_address_in_text pats text = (true, some (groupOf text.data m)) := by
  rw [check_address_in_text, if_neg hne, firstMatch_at hj hnone hsearch]

/-- Witness for C3: "835 E. 14th St" is matched by more than one base
pattern (index 0 and index 1 both match), and the result is the match of
the lowest index, pattern 0 — the whole string. -/
theorem c3_pattern_priority_witness :
    check_address_in_text basePatterns "835 E. 14th St"
        = (true, some (groupOf "835 E. 14th St".data (0, 14)))
      ∧ (basePatterns.get ⟨1, by decide⟩).search "835 E. 14th St".data ≠ none :=
  ⟨c3_pattern_priority basePatterns "835 E. 14th St" 0 (by decide) (0, 14) (by decide)
      (by intro p hp; simp at hp) (by decide),
   by decide⟩

/-! ## Claim C10 — match-result soundness -/

/-- Claim C10: whenever check_address_in_text (baseline configuration)
or the fast variant's prefiltered matcher reports found = true, the
matched text is a non-empty string that occurs contiguously in the
input, is a word of one of the configured patterns, and begins with —
hence contains as a contiguous substring — the numeric house-number
literal ("835" resp. "14735"), because every configured pattern starts
with that contiguous literal. -/
theorem c10_match_soundness (text s : String) :
    (check_address_in_text basePatterns text = (true, some s) →
      s ≠ "" ∧ occursIn s.data text.data ∧ (∃ p ∈ basePatterns, Accepts p.re s.data) ∧
        beginsWith "835".data s.data ∧ occursIn "835".data s.data)
    ∧ (check_address_in_text_fast "14735" juniperPatterns text = (true, some s) →
      s ≠ "" ∧ occursIn s.data text.data ∧ (∃ p ∈ juniperPatterns, Accepts p.re s.data) ∧
        beginsWith "14735".data s.data ∧ occursIn "14735".data s.data) := by
  constructor
  · intro h
    have hshape : ∀ p ∈ basePatterns, ∃ r, p.re = .cat (strReL "835".data) r := by
      intro p hp
      obtain ⟨r, hr⟩ := basePatterns_shape p hp
      exact ⟨r, hr⟩
    exact firstMatch_full_sound hshape (by decide) (by decide) (check_found h)
  · intro h
    have hshape : ∀ p ∈ juniperPatterns, ∃ r, p.re = .cat (strReL "14735".data) r := by
      intro p hp
      obtain ⟨r, hr⟩ := juniperPatterns_shape p hp
      exact ⟨r, hr⟩
    exact firstMatch_full_sound hshape (by decide) (by decide) (check_fast_found h)

/-- Witness for C10 on a found match of the baseline matcher. -/
theorem c10_match_soundness_witness :
    ("835 E. 14th St" : String) ≠ "" ∧
      occursIn "835 E. 14th St".data "835 E. 14th St".data ∧
      (∃ p ∈ basePatterns, Accepts p.re "835 E. 14th St".data) ∧
      beginsWith "835".data "835 E. 14th St".data ∧
      occursIn "835".data "835 E. 14th St".data :=
  (c10_match_soundness "835 E. 14th St" "835 E. 14th St").1 (by decide)

/-! ## Frontier and controller lemmas -/

theorem dequeuedUrls_append :
    ∀ (a b : List Ev), dequeuedUrls (a ++ b) = dequeuedUrls a ++ dequeuedUrls b := by
  intro a b
  induction a with
  | nil => rfl
  | cons e a ih =>
    cases e <;> simp [dequeuedUrls, ih]

theorem dequeuedUrls_records :
    ∀ (fs : List Finding), dequeuedUrls (fs.map Ev.record) = [] := by
  intro fs
  induction fs with
  | nil => rfl
  | cons f fs ih => simp [dequeuedUrls, ih]

theorem dequeue_mem_dequeuedUrls {u : String} :
    ∀ {evs : List Ev}, Ev.dequeue u ∈ evs → u ∈ dequeuedUrls evs := by
  intro evs
  induction evs with
  | nil => intro h; simp at h
  | cons e evs ih =>
    intro h
    rcases List.mem_cons.1 h with rfl | htail
    · simp [dequeuedUrls]
    · cases e <;> simp [dequeuedUrls] <;> first
        | exact ih htail
        | exact Or.inr (ih htail)

theorem processLinks_queue {w : World} {par : String} {vis : List String} :
    ∀ {ls qAcc : List String} {fAcc : List Finding} {v : String},
      v ∈ (processLinks w par vis ls qAcc fAcc).1 →
      v ∈ qAcc ∨ (v ∉ vis ∧ v ∉ qAcc ∧ endsWithPdf v = false) := by
  intro ls
  induction ls with
  | nil => intro qAcc fAcc v h; exact Or.inl h
  | cons link ls ih =>
    intro qAcc fAcc v h
    rw [processLinks] at h
    by_cases hc : (w.isValid link && !(w.skip link) && !(vis.contains link)
        && !(qAcc.contains link)) = true
    · rw [if_pos hc] at h
      simp only [Bool.and_eq_true, Bool.not_eq_true'] at hc
      obtain ⟨⟨⟨hval, hskip⟩, hvis⟩, hqacc⟩ := hc
      have hvism : link ∉ vis := by simpa using hvis
      have hqaccm : link ∉ qAcc := by simpa using hqacc
      by_cases hpdf : endsWithPdf link = true
      · rw [if_pos hpdf] at h
        by_cases hfound : (w.checkPdfUrl link).1 = true
        · rw [if_pos hfound] at h; exact ih h
        · rw [if_neg hfound] at h; exact ih h
      · rw [if_neg hpdf] at h
        rcases ih h with hin | ⟨hv1, hv2, hv3⟩
        · rcases List.mem_append.1 hin with h1 | h2
          · exact Or.inl h1
          · have hv : v = link := by simpa using h2
            subst hv
            exact Or.inr ⟨hvism, hqaccm, by simpa using hpdf⟩
        · exact Or.inr ⟨hv1, fun hq2 => hv2 (List.mem_append_left _ hq2), hv3⟩
    · rw [if_neg hc] at h; exact ih h

theorem processLinks_findings {w : World} {par : String} {vis : List String} :
    ∀ {ls qAcc : List String} {fAcc : List Finding} {g : Finding},
      g ∈ (processLinks w par vis ls qAcc fAcc).2 →
      g ∈ fAcc ∨ (g.kind = "PDF" ∧ g.parent = par ∧ endsWithPdf g.url = true ∧
        (w.checkPdfUrl g.url).1 = true ∧ g.matched = (w.checkPdfUrl g.url).2.getD "" ∧
        g.notes = "PDF document (linked)") := by
  intro ls
  induction ls with
  | nil => intro qAcc fAcc g h; exact Or.inl h
  | cons link ls ih =>
    intro qAcc fAcc g h
    rw [processLinks] at h
    by_cases hc : (w.isValid link && !(w.skip link) && !(vis.contains link)
        && !(qAcc.contains link)) = true
    · rw [if_pos hc] at h
      by_cases hpdf : endsWithPdf link = true
      · rw [if_pos hpdf] at h
        by_cases hfound : (w.checkPdfUrl link).1 = true
        · rw [if_pos hfound] at h
          rcases ih h with hin | hprops
          · rcases List.mem_append.1 hin with h1 | h2
            · exact Or.inl h1
            · have hg : g = ⟨link, "PDF", (w.checkPdfUrl link).2.getD "", "",
                  "PDF document (linked)", par⟩ := by simpa using h2
              subst hg
              exact Or.inr ⟨rfl, rfl, hpdf, hfound, rfl, rfl⟩
          · exact Or.inr hprops
        · rw [if_neg hfound] at h; exact ih h
      · rw [if_neg hpdf] at h; exact ih h
    · rw [if_neg hc] at h; exact ih h

/-- Characterization of `processFresh`: it always continues (never
terminates the loop and never raises), leaves the visited set and the
page counter of `s1` unchanged, adds no dequeue and no checkpoint event,
and only ever appends fresh non-PDF links to the queue. -/
theorem processFresh_cases (w : World) (u : String) (s1 : CState) (evs0 : List Ev) :
    ∃ s' extra, processFresh w u s1 evs0 = .cont s' (evs0 ++ extra) ∧
      s'.visited = s1.visited ∧ s'.pagesCrawled = s1.pagesCrawled ∧
      dequeuedUrls extra = [] ∧ (∀ p c, Ev.save p c ∉ extra) ∧
      (∀ v, v ∈ s'.queue → v ∈ s1.queue ∨
        (v ∉ s1.visited ∧ v ∉ s1.queue ∧ endsWithPdf v = false)) := by
  cases hf : w.fetchResult u with
  | none =>
    exact ⟨s1, [], by simp [processFresh, hf], rfl, rfl, rfl, by simp,
      fun v hv => Or.inl hv⟩
  | some pr =>
    obtain ⟨html, ct⟩ := pr
    by_cases hh : html = ""
    · exact ⟨s1, [], by simp [processFresh, hf, hh], rfl, rfl, rfl, by simp,
        fun v hv => Or.inl hv⟩
    · by_cases hpdf : ctIsPdf ct = true
      · by_cases hfound : (w.checkPdfUrl u).1 = true
        · refine ⟨{ s1 with findings := s1.findings ++
              [⟨u, "PDF", (w.checkPdfUrl u).2.getD "", "", "PDF document (direct access)", ""⟩] },
            [.record ⟨u, "PDF", (w.checkPdfUrl u).2.getD "", "", "PDF document (direct access)", ""⟩],
            by simp [processFresh, hf, hh, hpdf, hfound], rfl, rfl, by simp [dequeuedUrls],
            by simp, fun v hv => Or.inl hv⟩
        · exact ⟨s1, [], by simp [processFresh, hf, hh, hpdf, hfound], rfl, rfl, rfl,
            by simp, fun v hv => Or.inl hv⟩
      · by_cases hparse : w.parseOk html = true
        · refine ⟨{ s1 with
              queue := (processLinks w u s1.visited (w.linksOf html u) s1.queue []).1,
              findings := s1.findings ++
                ((if (w.checkText (w.textOf html)).1 then
                    [⟨u, "HTML Page", (w.checkText (w.textOf html)).2.getD "",
                      (w.titleOf html).getD "No title", "HTML page content", ""⟩]
                  else []) ++ (processLinks w u s1.visited (w.linksOf html u) s1.queue []).2) },
            ((if (w.checkText (w.textOf html)).1 then
                [(⟨u, "HTML Page", (w.checkText (w.textOf html)).2.getD "",
                  (w.titleOf html).getD "No title", "HTML page content", ""⟩ : Finding)]
              else []) ++ (processLinks w u s1.visited (w.linksOf html u) s1.queue []).2).map .record
              ++ [.sleep],
            ?_, rfl, rfl, ?_, ?_, ?_⟩
          · simp [processFresh, hf, hh, hpdf, hparse]
          · rw [dequeuedUrls_append, dequeuedUrls_records]
            rfl
          · intro p c
            simp
          · intro v hv
            exact processLinks_queue hv
        · exact ⟨s1, [], by simp [processFresh, hf, hh, hpdf, hparse], rfl, rfl, rfl,
            by simp, fun v hv => Or.inl hv⟩

theorem stepOnce_nil {w : World} {s : CState} (hq : s.queue = []) :
    stepOnce w s = .done := by
  simp only [stepOnce, hq]

theorem stepOnce_budget {w : World} {s : CState} {u : String} {rest : List String}
    (hq : s.queue = u :: rest) (hmax : ¬s.pagesCrawled < w.maxPages) :
    stepOnce w s = .done := by
  simp only [stepOnce, hq]
  rw [if_neg hmax]

theorem stepOnce_skip {w : World} {s : CState} {u : String} {rest : List String}
    (hq : s.queue = u :: rest) (hv : u ∈ s.visited) (hmax : s.pagesCrawled < w.maxPages) :
    stepOnce w s = .cont { s with queue := rest } [.skipVisited u] := by
  simp only [stepOnce, hq]
  rw [if_pos hmax, if_pos hv]

theorem stepOnce_interrupt {w : World} {s : CState} {u : String} {rest : List String}
    (hq : s.queue = u :: rest) (hv : u ∉ s.visited) (hmax : s.pagesCrawled < w.maxPages)
    (hint : w.interruptAt = some (s.pagesCrawled + 1)) :
    stepOnce w s = .interrupted ⟨rest, u :: s.visited, s.pagesCrawled + 1, s.findings⟩
      ([Ev.dequeue u] ++ (if (s.pagesCrawled + 1) % 50 = 0
        then [Ev.save (s.pagesCrawled + 1) u] else [])) := by
  simp only [stepOnce, hq]
  rw [if_pos hmax, if_neg hv, if_pos hint]

theorem stepOnce_fresh {w : World} {s : CState} {u : String} {rest : List String}
    (hq : s.queue = u :: rest) (hv : u ∉ s.visited) (hmax : s.pagesCrawled < w.maxPages)
    (hint : w.interruptAt ≠ some (s.pagesCrawled + 1)) :
    stepOnce w s = processFresh w u ⟨rest, u :: s.visited, s.pagesCrawled + 1, s.findings⟩
      ([Ev.dequeue u] ++ (if (s.pagesCrawled + 1) % 50 = 0
        then [Ev.save (s.pagesCrawled + 1) u] else [])) := by
  simp only [stepOnce, hq]
  rw [if_pos hmax, if_neg hv, if_neg hint]

theorem dequeuedUrls_evs0 {u : String} {p : Nat} {c : Prop} [Decidable c] :
    dequeuedUrls ([Ev.dequeue u] ++ (if c then [Ev.save p u] else [])) = [u] := by
  by_cases h : c
  · rw [if_pos h]; rfl
  · rw [if_neg h]; rfl

/-- Per-iteration characterization: either an already-visited URL is
discarded (no dequeue, nothing else changes), or exactly one fresh URL
is dequeued, marked visited, and counted. -/
theorem step_main {w : World} {s s' : CState} {evs : List Ev}
    (h : stepOnce w s = .cont s' evs ∨ stepOnce w s = .interrupted s' evs) :
    (s'.visited = s.visited ∧ s'.pagesCrawled = s.pagesCrawled ∧ dequeuedUrls evs = [])
    ∨ (∃ u, u ∉ s.visited ∧ s'.visited = u :: s.visited ∧
        s'.pagesCrawled = s.pagesCrawled + 1 ∧ dequeuedUrls evs = [u]) := by
  cases hq : s.queue with
  | nil =>
    rcases h with h | h <;> rw [stepOnce_nil hq] at h <;> exact absurd h (by simp)
  | cons u rest =>
    by_cases hmax : s.pagesCrawled < w.maxPages
    · by_cases hv : u ∈ s.visited
      · rcases h with h | h
        · rw [stepOnce_skip hq hv hmax] at h
          injection h with h1 h2
          subst h1; subst h2
          exact Or.inl ⟨rfl, rfl, rfl⟩
        · rw [stepOnce_skip hq hv hmax] at h
          exact absurd h (by simp)
      · by_cases hint : w.interruptAt = some (s.pagesCrawled + 1)
        · rcases h with h | h
          · rw [stepOnce_interrupt hq hv hmax hint] at h
            exact absurd h (by simp)
          · rw [stepOnce_interrupt hq hv hmax hint] at h
            injection h with h1 h2
            subst h1; subst h2
            exact Or.inr ⟨u, hv, rfl, rfl, dequeuedUrls_evs0⟩
        · obtain ⟨s2, extra, heq, hvis, hpages, hde, _, _⟩ :=
            processFresh_cases w u ⟨rest, u :: s.visited, s.pagesCrawled + 1, s.findings⟩
              ([Ev.dequeue u] ++ (if (s.pagesCrawled + 1) % 50 = 0
                then [Ev.save (s.pagesCrawled + 1) u] else []))
          rcases h with h | h
          · rw [stepOnce_fresh hq hv hmax hint, heq] at h
            injection h with h1 h2
            subst h1; subst h2
            refine Or.inr ⟨u, hv, hvis, hpages, ?_⟩
            rw [dequeuedUrls_append, hde, dequeuedUrls_evs0]
            rfl
          · rw [stepOnce_fresh hq hv hmax hint, heq] at h
            exact absurd h (by simp)
    · rcases h with h | h <;> rw [stepOnce_budget hq hmax] at h <;> exact absurd h (by simp)

/-- Newly enqueued URLs are fresh (not visited, not already queued) and
never PDF links. -/
theorem step_queue {w : World} {s s' : CState} {evs : List Ev}
    (h : stepOnce w s = .cont s' evs) :
    ∀ v ∈ s'.queue, v ∈ s.queue ∨ (v ∉ s'.visited ∧ v ∉ s.queue ∧ endsWithPdf v = false) := by
  intro v hv
  cases hq : s.queue with
  | nil =>
    rw [stepOnce_nil hq] at h
    exact absurd h (by simp)
  | cons u rest =>
    by_cases hmax : s.pagesCrawled < w.maxPages
    · by_cases hvis : u ∈ s.visited
      · rw [stepOnce_skip hq hvis hmax] at h
        injection h with h1 h2
        subst h1
        exact Or.inl (List.mem_cons_of_mem u hv)
      · by_cases hint : w.interruptAt = some (s.pagesCrawled + 1)
        · rw [stepOnce_interrupt hq hvis hmax hint] at h
          exact absurd h (by simp)
        · obtain ⟨s2, extra, heq, hvisEq, _, _, _, hqueue⟩ :=
            processFresh_cases w u ⟨rest, u :: s.visited, s.pagesCrawled + 1, s.findings⟩
              ([Ev.dequeue u] ++ (if (s.pagesCrawled + 1) % 50 = 0
                then [Ev.save (s.pagesCrawled + 1) u] else []))
          rw [stepOnce_fresh hq hvis hmax hint, heq] at h
          injection h with h1 h2
          subst h1
          rcases hqueue v hv with hin | ⟨hnv, hnq, hpdf⟩
          · exact Or.inl (List.mem_cons_of_mem u hin)
          · refine Or.inr ⟨by rw [hvisEq]; exact hnv, ?_, hpdf⟩
            intro hmem
            rcases List.mem_cons.1 hmem with rfl | hmem2
            · exact hnv (List.mem_cons_self v _)
            · exact hnq hmem2
    · rw [stepOnce_budget hq hmax] at h
      exact absurd h (by simp)

/-- The dequeue-plus-optional-checkpoint event prefix contains a
checkpoint only when the counter is at the 50-page cadence. -/
theorem save_mem_evs0 {p n : Nat} {c u : String} {cond : Prop} [Decidable cond]
    (h : Ev.save p c ∈ [Ev.dequeue u] ++ (if cond then [Ev.save n u] else [])) :
    p = n ∧ cond := by
  rcases List.mem_append.1 h with h1 | h1
  · simp at h1
  · by_cases hc : cond
    · rw [if_pos hc] at h1
      have h2 : p = n ∧ c = u := by simpa using h1
      exact ⟨h2.1, hc⟩
    · rw [if_neg hc] at h1
      simp at h1

/-- Every checkpoint event produced by an iteration is a periodic one:
its page count is the new counter value, a multiple of 50. -/
theorem step_saves {w : World} {s s' : CState} {evs : List Ev}
    (h : stepOnce w s = .cont s' evs ∨ stepOnce w s = .interrupted s' evs) :
    ∀ p c, Ev.save p c ∈ evs → p % 50 = 0 := by
  intro p c hp
  cases hq : s.queue with
  | nil =>
    rcases h with h | h <;> rw [stepOnce_nil hq] at h <;> exact absurd h (by simp)
  | cons u rest =>
    by_cases hmax : s.pagesCrawled < w.maxPages
    · by_cases hv : u ∈ s.visited
      · rcases h with h | h
        · rw [stepOnce_skip hq hv hmax] at h
          injection h with h1 h2
          subst h2
          simp at hp
        · rw [stepOnce_skip hq hv hmax] at h
          exact absurd h (by simp)
      · by_cases hint : w.interruptAt = some (s.pagesCrawled + 1)
        · rcases h with h | h
          · rw [stepOnce_interrupt hq hv hmax hint] at h
            exact absurd h (by simp)
          · rw [stepOnce_interrupt hq hv hmax hint] at h
            injection h with h1 h2
            subst h2
            obtain ⟨hpn, hcond⟩ := save_mem_evs0 hp
            rw [hpn]
            exact hcond
        · obtain ⟨s2, extra, heq, _, _, _, hsave, _⟩ :=
            processFresh_cases w u ⟨rest, u :: s.visited, s.pagesCrawled + 1, s.findings⟩
              ([Ev.dequeue u] ++ (if (s.pagesCrawled + 1) % 50 = 0
                then [Ev.save (s.pagesCrawled + 1) u] else []))
          rcases h with h | h
          · rw [stepOnce_fresh hq hv hmax hint, heq] at h
            injection h with h1 h2
            subst h2
            rcases List.mem_append.1 hp with h1 | h1
            · obtain ⟨hpn, hcond⟩ := save_mem_evs0 h1
              rw [hpn]
              exact hcond
            · exact absurd h1 (hsave p c)
          · rw [stepOnce_fresh hq hv hmax hint, heq] at h
            exact absurd h (by simp)
    · rcases h with h | h <;> rw [stepOnce_budget hq hmax] at h <;> exact absurd h (by simp)

/-- The visited set grows monotonically across one iteration. -/
theorem step_visited_mono {w : World} {s s' : CState} {evs : List Ev}
    (h : stepOnce w s = .cont s' evs ∨ stepOnce w s = .interrupted s' evs) :
    ∀ x ∈ s.visited, x ∈ s'.visited := by
  intro x hx
  rcases step_main h with ⟨hv, _, _⟩ | ⟨u, _, hv, _, _⟩
  · rw [hv]; exact hx
  · rw [hv]; exact List.mem_cons_of_mem u hx

/-- A URL that is already visited is never dequeued later in the run. -/
theorem run_fresh_dequeues (w : World) :
    ∀ (fuel : Nat) (s : CState) (x : String), x ∈ s.visited →
      x ∉ dequeuedUrls (run w fuel s).evs := by
  intro fuel
  induction fuel with
  | zero => intro s x hx; simp [run, dequeuedUrls]
  | succ n ih =>
    intro s x hx
    rw [run]
    cases hstep : stepOnce w s with
    | done => simp [dequeuedUrls]
    | interrupted s' evs =>
      rcases step_main (Or.inr hstep) with ⟨_, _, hde⟩ | ⟨u, hu, _, _, hde⟩
      · simp only [hde]
        simp
      · simp only [hde]
        intro hmem
        have : x = u := by simpa using hmem
        subst this
        exact hu hx
    | cont s' evs =>
      simp only
      rw [dequeuedUrls_append]
      intro hmem
      rcases List.mem_append.1 hmem with h1 | h2
      · rcases step_main (Or.inl hstep) with ⟨_, _, hde⟩ | ⟨u, hu, _, _, hde⟩
        · rw [hde] at h1; simp at h1
        · rw [hde] at h1
          have : x = u := by simpa using h1
          subst this
          exact hu hx
      · exact ih s' x (step_visited_mono (Or.inl hstep) x hx) h2

/-- In any run, no URL is dequeued for processing more than once. -/
theorem run_nodup (w : World) :
    ∀ (fuel : Nat) (s : CState), (dequeuedUrls (run w fuel s).evs).Nodup := by
  intro fuel
  induction fuel with
  | zero => intro s; simp [run, dequeuedUrls]
  | succ n ih =>
    intro s
    rw [run]
    cases hstep : stepOnce w s with
    | done => simp [dequeuedUrls]
    | interrupted s' evs =>
      rcases step_main (Or.inr hstep) with ⟨_, _, hde⟩ | ⟨u, _, _, _, hde⟩
      · simp only [hde]; exact List.nodup_nil
      · simp only [hde]; exact List.nodup_singleton u
    | cont s' evs =>
      simp only
      rw [dequeuedUrls_append]
      rcases step_main (Or.inl hstep) with ⟨_, _, hde⟩ | ⟨u, hu, hvis, _, hde⟩
      · rw [hde]
        simpa using ih s'
      · rw [hde]
        refine List.nodup_cons.2 ⟨?_, ih s'⟩
        exact run_fresh_dequeues w n s' u (by rw [hvis]; exact List.mem_cons_self u _)

/-- The page counter counts exactly the dequeued URLs. -/
theorem run_pages (w : World) :
    ∀ (fuel : Nat) (s : CState), (run w fuel s).state.pagesCrawled
      = s.pagesCrawled + (dequeuedUrls (run w fuel s).evs).length := by
  intro fuel
  induction fuel with
  | zero => intro s; simp [run, dequeuedUrls]
  | succ n ih =>
    intro s
    rw [run]
    cases hstep : stepOnce w s with
    | done => simp [dequeuedUrls]
    | interrupted s' evs =>
      rcases step_main (Or.inr hstep) with ⟨_, hp, hde⟩ | ⟨u, _, _, hp, hde⟩
      · simp only [hde, hp]; simp
      · simp only [hde, hp]; simp
    | cont s' evs =>
      simp only
      rw [dequeuedUrls_append, List.length_append]
      have := ih s'
      rcases step_main (Or.inl hstep) with ⟨_, hp, hde⟩ | ⟨u, _, _, hp, hde⟩
      · rw [hde, this, hp]; simp
      · rw [hde, this, hp]; simp [Nat.add_comm, Nat.add_assoc, Nat.add_left_comm]

/-- Every checkpoint written during the loop is a periodic one. -/
theorem run_saves (w : World) :
    ∀ (fuel : Nat) (s : CState) (p : Nat) (c : String),
      Ev.save p c ∈ (run w fuel s).evs → p % 50 = 0 := by
  intro fuel
  induction fuel with
  | zero => intro s p c h; simp [run] at h
  | succ n ih =>
    intro s p c h
    rw [run] at h
    cases hstep : stepOnce w s with
    | done => rw [hstep] at h; simp at h
    | interrupted s' evs =>
      rw [hstep] at h
      exact step_saves (Or.inr hstep) p c (by simpa using h)
    | cont s' evs =>
      rw [hstep] at h
      simp only at h
      rcases List.mem_append.1 h with h1 | h2
      · exact step_saves (Or.inl hstep) p c h1
      · exact ih s' p c h2

/-! ## Claim C2 — no revisit -/

/-- Claim C2: in any run of the crawl loop, (1) no URL is dequeued for
processing more than once; (2) the visited set grows monotonically;
(3) a URL is added to the visited set exactly when it is handed out for
processing (it was not visited before, it is visited afterwards); and
(4) a URL already visited or already present in the pending queue is
never enqueued again — every queue entry after a step was either already
queued or is fresh (neither visited nor previously queued). -/
theorem c2_no_revisit :
    (∀ (w : World) (fuel : Nat) (s : CState), (dequeuedUrls (run w fuel s).evs).Nodup)
    ∧ (∀ (w : World) (s s' : CState) (evs : List Ev), stepOnce w s = .cont s' evs →
        ∀ x ∈ s.visited, x ∈ s'.visited)
    ∧ (∀ (w : World) (s s' : CState) (evs : List Ev) (u : String), stepOnce w s = .cont s' evs →
        Ev.dequeue u ∈ evs → u ∈ s'.visited ∧ u ∉ s.visited)
    ∧ (∀ (w : World) (s s' : CState) (evs : List Ev) (v : String), stepOnce w s = .cont s' evs →
        v ∈ s'.queue → v ∈ s.queue ∨ (v ∉ s'.visited ∧ v ∉ s.queue)) := by
  refine ⟨fun w fuel s => run_nodup w fuel s,
    fun w s s' evs h => step_visited_mono (Or.inl h),
    fun w s s' evs u h hd => ?_, fun w s s' evs v h hv => ?_⟩
  · have hmem := dequeue_mem_dequeuedUrls hd
    rcases step_main (Or.inl h) with ⟨_, _, hde⟩ | ⟨u', hu, hvis, _, hde⟩
    · rw [hde] at hmem; simp at hmem
    · rw [hde] at hmem
      have : u = u' := by simpa using hmem
      subst this
      exact ⟨by rw [hvis]; exact List.mem_cons_self u _, hu⟩
  · rcases step_queue h v hv with h1 | ⟨h1, h2, _⟩
    · exact Or.inl h1
    · exact Or.inr ⟨h1, h2⟩

/-- Witness for C2 on a concrete step of the `w9` environment: the
dequeued root URL enters the visited set exactly when handed out. -/
theorem c2_no_revisit_witness :
    "r" ∈ (⟨["a", "b"], ["r"], 1, []⟩ : CState).visited ∧ "r" ∉ (initState w9).visited :=
  c2_no_revisit.2.2.1 w9 (initState w9) ⟨["a", "b"], ["r"], 1, []⟩
    [Ev.dequeue "r", Ev.sleep] "r" (by decide) (by decide)

/-! ## Claim C5 — fetch-error propagation -/

/-- Claim C5: when the fetch of a dequeued fresh URL fails (the oracle
returns `none`, covering network errors, timeouts, non-2xx responses and
decode failures, all caught inside get_page_content), the iteration
continues to the next URL: the loop does not terminate (the result is a
`.cont`), no Finding is recorded (the findings list is unchanged and the
events contain no record), and the URL still counts toward the visited
set and the page budget — the counter was incremented before the fetch
was attempted. -/
theorem c5_fetch_error_skip (w : World) (s : CState) (u : String) (rest : List String)
    (hq : s.queue = u :: rest) (hv : u ∉ s.visited) (hmax : s.pagesCrawled < w.maxPages)
    (hint : w.interruptAt ≠ some (s.pagesCrawled + 1)) (hf : w.fetchResult u = none) :
    stepOnce w s = .cont ⟨rest, u :: s.visited, s.pagesCrawled + 1, s.findings⟩
      ([Ev.dequeue u] ++ (if (s.pagesCrawled + 1) % 50 = 0
        then [Ev.save (s.pagesCrawled + 1) u] else [])) := by
  rw [stepOnce_fresh hq hv hmax hint]
  simp [processFresh, hf]

/-- Witness for C5: in `w9` the fetch of `a` fails; the step dequeues
it, counts it, records nothing, and continues with the next URL. -/
theorem c5_fetch_error_skip_witness :
    stepOnce w9 ⟨["a"], ["r"], 1, []⟩ = .cont ⟨[], ["a", "r"], 2, []⟩ [Ev.dequeue "a"] := by
  rw [c5_fetch_error_skip w9 ⟨["a"], ["r"], 1, []⟩ "a" [] rfl (by decide) (by decide)
    (by decide) rfl]
  decide

/-! ## Claim C6 — linked documents are leaves -/

/-- Claim C6: (1) a URL ending in the document suffix `.pdf`
(case-insensitively) is never appended to the pending queue — every
queue entry after a step was either already queued or is not a PDF link;
(2) every Finding produced by link discovery comes from a link with the
PDF suffix whose immediate fetch-and-match succeeded, has kind "PDF",
the linked-document note, the match text returned by check_pdf_content,
and the current page recorded as Parent Page; (3) end-to-end: for the
environment `w6`, whose root page links to a PDF whose page text
contains the target address, the completed crawl yields exactly one
Finding — kind PDF, Parent Page the root URL — and the PDF URL never
enters the page-crawl queue in any state of the run. -/
theorem c6_pdf_leaf :
    (∀ (w : World) (s s' : CState) (evs : List Ev) (v : String), stepOnce w s = .cont s' evs →
        v ∈ s'.queue → v ∈ s.queue ∨ endsWithPdf v = false)
    ∧ (∀ (w : World) (par : String) (vis ls qAcc : List String) (g : Finding),
        g ∈ (processLinks w par vis ls qAcc []).2 →
        g.kind = "PDF" ∧ g.parent = par ∧ endsWithPdf g.url = true ∧
          (w.checkPdfUrl g.url).1 = true ∧ g.matched = (w.checkPdfUrl g.url).2.getD "" ∧
          g.notes = "PDF document (linked)")
    ∧ ((crawl_site w6 3 (initState w6)).state.findings = [scenFinding]
        ∧ (∀ st ∈ runStates w6 3 (initState w6), "https://www.slusd.us/doc.pdf" ∉ st.queue)
        ∧ (crawl_site w6 3 (initState w6)).outcome = .completed) := by
  refine ⟨fun w s s' evs v h hv => ?_, fun w par vis ls qAcc g hg => ?_,
    by decide, by decide, by decide⟩
  · rcases step_queue h v hv with h1 | ⟨_, _, h3⟩
    · exact Or.inl h1
    · exact Or.inr h3
  · rcases processLinks_findings hg with h1 | h1
    · simp at h1
    · exact h1

/-- Witness for C6: the scenario's linked-PDF Finding is produced by
processLinks with the root page as parent. -/
theorem c6_pdf_leaf_witness :
    scenFinding.kind = "PDF" ∧ scenFinding.parent = "https://www.slusd.us" ∧
      endsWithPdf scenFinding.url = true ∧ (w6.checkPdfUrl scenFinding.url).1 = true ∧
      scenFinding.matched = (w6.checkPdfUrl scenFinding.url).2.getD "" ∧
      scenFinding.notes = "PDF document (linked)" :=
  c6_pdf_leaf.2.1 w6 "https://www.slusd.us" ["https://www.slusd.us"]
    ["https://www.slusd.us/doc.pdf"] [] scenFinding (by decide)

/-! ## Claim C9 — rate limiting (corrected)

The claim fails on the code: every `continue` inside the `try:` block of
crawl_site jumps past the `time.sleep` at the end of the loop body, so
an iteration that ends early (fetch failure, direct-PDF handling, parse
failure, or the already-visited skip before the block) applies no delay
before the next dequeue. -/

/-- Counterexample to C9 as stated: in the run over `w9`, the iteration
for `a` ends with the fetch-failure `continue`, so the dequeues of `a`
and `b` are adjacent with no sleep between them — the fixed delay is not
applied between every pair of consecutive iterations. -/
theorem c9_rate_limit_cex :
    sleepSep false (run w9 5 (initState w9)).evs = false
      ∧ (run w9 5 (initState w9)).evs
          = [.dequeue "r", .sleep, .dequeue "a", .dequeue "b", .sleep] := by
  exact ⟨by decide, by decide⟩

/-- Claim C9 as amended: the fixed inter-request delay is applied at the
end of exactly those iterations that complete the full HTML-processing
path (fetch succeeded with non-empty content that is not a PDF and
parses); an iteration that ends early — already-visited skip, fetch
failure, empty content, direct-PDF handling, or parse failure — emits no
sleep before the next dequeue. -/
theorem c9_rate_limit_amended :
    (∀ (w : World) (s : CState) (u : String) (rest : List String) (s' : CState) (evs : List Ev),
      s.queue = u :: rest → u ∉ s.visited → s.pagesCrawled < w.maxPages →
      w.interruptAt ≠ some (s.pagesCrawled + 1) → stepOnce w s = .cont s' evs →
      (Ev.sleep ∈ evs ↔ ∃ html ct, w.fetchResult u = some (html, ct) ∧ html ≠ "" ∧
        ctIsPdf ct = false ∧ w.parseOk html = true))
    ∧ (∀ (w : World) (s : CState) (u : String) (rest : List String),
        s.queue = u :: rest → u ∈ s.visited → s.pagesCrawled < w.maxPages →
        stepOnce w s = .cont { s with queue := rest } [.skipVisited u]) := by
  constructor
  · intro w s u rest s' evs hq hv hmax hint hstep
    rw [stepOnce_fresh hq hv hmax hint] at hstep
    have hsleep0 : Ev.sleep ∉ [Ev.dequeue u] ++ (if (s.pagesCrawled + 1) % 50 = 0
        then [Ev.save (s.pagesCrawled + 1) u] else []) := by
      intro hmem
      rcases List.mem_append.1 hmem with h1 | h1
      · simp at h1
      · by_cases hc : (s.pagesCrawled + 1) % 50 = 0
        · rw [if_pos hc] at h1; simp at h1
        · rw [if_neg hc] at h1; simp at h1
    cases hf : w.fetchResult u with
    | none =>
      rw [processFresh, hf] at hstep
      injection hstep with h1 h2
      subst h2
      constructor
      · intro hmem; exact absurd hmem hsleep0
      · rintro ⟨html, ct, hcontra, -, -, -⟩
        exact absurd hcontra (by simp)
    | some pr =>
      obtain ⟨html, ct⟩ := pr
      by_cases hh : html = ""
      · rw [processFresh, hf] at hstep
        simp only [hh, if_pos rfl] at hstep
        injection hstep with h1 h2
        subst h2
        constructor
        · intro hmem; exact absurd hmem hsleep0
        · rintro ⟨html', ct', heq, hne, -, -⟩
          have : html' = html := by
            have h3 := Option.some.inj heq
            exact (Prod.mk.injEq _ _ _ _ ▸ h3).1.symm
          rw [this, hh] at hne
          exact absurd rfl hne
      · by_cases hpdf : ctIsPdf ct = true
        · by_cases hfound : (w.checkPdfUrl u).1 = true
          · rw [processFresh, hf] at hstep
            simp only [if_neg hh, hpdf, if_pos rfl, if_pos hfound] at hstep
            injection hstep with h1 h2
            subst h2
            constructor
            · intro hmem
              rcases List.mem_append.1 hmem with h1 | h1
              · exact absurd h1 hsleep0
              · simp at h1
            · rintro ⟨html', ct', heq, -, hct, -⟩
              have : ct' = ct := by
                have h3 := Option.some.inj heq
                exact (Prod.mk.injEq _ _ _ _ ▸ h3).2.symm
              rw [this, hpdf] at hct
              exact absurd hct (by simp)
          · rw [processFresh, hf] at hstep
            simp only [if_neg hh, hpdf, if_pos rfl, if_neg hfound] at hstep
            injection hstep with h1 h2
            subst h2
            constructor
            · intro hmem; exact absurd hmem hsleep0
            · rintro ⟨html', ct', heq, -, hct, -⟩
              have : ct' = ct := by
                have h3 := Option.some.inj heq
                exact (Prod.mk.injEq _ _ _ _ ▸ h3).2.symm
              rw [this, hpdf] at hct
              exact absurd hct (by simp)
        · by_cases hparse : w.parseOk html = true
          · rw [processFresh, hf] at hstep
            simp only [if_neg hh, if_neg hpdf, if_pos hparse] at hstep
            injection hstep with h1 h2
            subst h2
            constructor
            · intro _
              exact ⟨html, ct, rfl, hh, by simpa using hpdf, hparse⟩
            · intro _
              refine List.mem_append.2 (Or.inr ?_)
              simp
          · rw [processFresh, hf] at hstep
            simp only [if_neg hh, if_neg hpdf, if_neg hparse] at hstep
            injection hstep with h1 h2
            subst h2
            constructor
            · intro hmem; exact absurd hmem hsleep0
            · rintro ⟨html', ct', heq, -, -, hpr⟩
              have : html' = html := by
                have h3 := Option.some.inj heq
                exact (Prod.mk.injEq _ _ _ _ ▸ h3).1.symm
              rw [this] at hpr
              exact absurd hpr hparse
  · intro w s u rest hq hv hmax
    exact stepOnce_skip hq hv hmax

/-- Witness for the amended C9 at a full-path iteration of `w9`: the
root page is fetched, parsed, and the iteration ends with a sleep. -/
theorem c9_rate_limit_amended_witness :
    Ev.sleep ∈ [Ev.dequeue "r", Ev.sleep] :=
  (c9_rate_limit_amended.1 w9 (initState w9) "r" [] ⟨["a", "b"], ["r"], 1, []⟩
      [Ev.dequeue "r", Ev.sleep] rfl (by decide) (by decide) (by decide) (by decide)).2
    ⟨"RH", "text/html", rfl, by decide, by decide, by decide⟩

/-! ## Claim C4 — interruption checkpointing (corrected)

The claim fails on the code: KeyboardInterrupt is not a subclass of
Exception in Python 3, so it propagates out of crawl_site before the
final save_progress call; main catches it and prints the summary, but no
checkpoint is written at interruption, and the checkpoint format has no
status field at all (only the periodic pages/current-URL snapshots, and
the "COMPLETED" sentinel written on normal termination). -/

/-- Counterexample to C4 as stated: in `w4` the interrupt arrives while
the first dequeued URL is being fetched; the run is interrupted, one URL
was dequeued, execution ends cleanly with the summary — but the whole
event trace contains no checkpoint write at all, in particular no final
checkpoint with an interruption status. -/
theorem c4_interrupt_checkpoint_cex :
    (run w4 10 (initState w4)).outcome = .interrupted
      ∧ mainEvents w4 10 = [.dequeue "r", .summary]
      ∧ (mainEvents w4 10).filter isSaveEv = []
      ∧ dequeuedUrls (mainEvents w4 10) = ["r"] := by
  exact ⟨by decide, by decide, by decide, by decide⟩

/-- Claim C4 as amended: an interrupt delivered mid-run aborts the loop
before crawl_site's final checkpoint write; main catches it and the
program still ends cleanly with the summary.  No final checkpoint is
written on interruption: the interrupted trace carries only the periodic
every-50-pages checkpoints.  The interrupted state's pages-crawled count
does equal the number of URLs actually dequeued. -/
theorem c4_interrupt_checkpoint (w : World) (fuel : Nat)
    (h : (run w fuel (initState w)).outcome = .interrupted) :
    mainEvents w fuel = (run w fuel (initState w)).evs ++ [.summary]
    ∧ (∀ p c, Ev.save p c ∈ (run w fuel (initState w)).evs → p % 50 = 0)
    ∧ (run w fuel (initState w)).state.pagesCrawled
        = (dequeuedUrls (run w fuel (initState w)).evs).length := by
  refine ⟨?_, fun p c => run_saves w fuel (initState w) p c, ?_⟩
  · rw [mainEvents, crawl_site]
    simp only [h]
  · have := run_pages w fuel (initState w)
    simpa [initState] using this

/-- Witness for the amended C4 at the interrupted run over `w4`. -/
theorem c4_interrupt_checkpoint_witness :
    mainEvents w4 10 = (run w4 10 (initState w4)).evs ++ [Ev.summary]
      ∧ (run w4 10 (initState w4)).state.pagesCrawled
          = (dequeuedUrls (run w4 10 (initState w4)).evs).length :=
  ⟨(c4_interrupt_checkpoint w4 10 (by decide)).1,
   (c4_interrupt_checkpoint w4 10 (by decide)).2.2⟩

/-! ## Claim C7 — partial document resilience (corrected)

Skipping failed pages and never letting an exception escape holds for
both variants, and the baseline variant does match the concatenation of
the successfully-extracted pages.  But the fast variant's
check_pdf_content matches page by page with an early return, so the
"text that is matched" is a single page, not the concatenation: a match
that spans a page boundary is missed. -/

/-- Counterexample to C7 as stated, on the fast variant: a document
whose two pages both extract successfully but split the address across
the page boundary.  Matching the concatenation of the extracted pages
finds "14735 Juniper St", yet check_pdf_content of the fast variant
reports not-found, so the text it matches is not the concatenation. -/
theorem c7_partial_document_resilience_cex :
    check_pdf_pages_fast [Except.ok "14735 Jun", Except.ok "iper St"] = (false, none)
      ∧ check_address_in_text_fast "14735" juniperPatterns
          (extractConcat [Except.ok "14735 Jun", Except.ok "iper St"])
          = (true, some "14735 Juniper St") := by
  exact ⟨by decide, by decide⟩

/-- Claim C7 as amended: in both variants a page whose extraction raises
is skipped and extraction continues (no exception escapes — the
functions are total and the error pages simply drop out, e.g. a 10-page
document failing on pages 3 and 7 yields the concatenation of pages
1,2,4,5,6,8,9,10 in order); the baseline variant matches the
concatenation of exactly the successfully-extracted pages, while the
fast variant matches page by page and returns the first within-page
match. -/
theorem c7_partial_document_resilience :
    (∀ t1 t2 t4 t5 t6 t8 t9 t10 : String,
      extractConcat [.ok t1, .ok t2, .error (), .ok t4, .ok t5, .ok t6, .error (),
          .ok t8, .ok t9, .ok t10]
        = t1 ++ (t2 ++ (t4 ++ (t5 ++ (t6 ++ (t8 ++ (t9 ++ t10)))))))
    ∧ (∀ ps, extractConcat (.error () :: ps) = extractConcat ps)
    ∧ (∀ ps, check_pdf_pages_base ps = check_address_in_text basePatterns (extractConcat ps))
    ∧ (∀ ps, check_pdf_pages_fast (.error () :: ps) = check_pdf_pages_fast ps)
    ∧ (∀ (t : String) (ps : List (Except Unit String)) (mt : Option String),
        check_address_in_text_fast "14735" juniperPatterns t = (true, mt) →
        check_pdf_pages_fast (.ok t :: ps) = (true, mt)) := by
  refine ⟨fun t1 t2 t4 t5 t6 t8 t9 t10 => ?_, fun ps => rfl, fun ps => rfl, fun ps => rfl,
    fun t ps mt h => ?_⟩
  · simp [extractConcat, String.append_assoc]
  · have hq : containsSub "14735".data t.data = true := by
      by_contra hq
      rw [Bool.not_eq_true] at hq
      rw [check_address_in_text_fast] at h
      by_cases ht : t = ""
      · rw [if_pos ht] at h; simp at h
      · rw [if_neg ht, hq] at h; simp at h
    rw [check_pdf_pages_fast, if_pos hq, h]

/-- Witness for the amended C7's early-return conjunct: a first page
containing the address short-circuits the page scan. -/
theorem c7_partial_document_resilience_witness :
    check_pdf_pages_fast [Except.ok "14735 Juniper St", Except.error ()]
        = (true, some "14735 Juniper St") :=
  c7_partial_document_resilience.2.2.2.2 "14735 Juniper St" [Except.error ()]
    (some "14735 Juniper St") (by decide)

/-! ## Claim C8 — idempotent findings-store initialization -/

/-- Claim C8: initializing the findings store writes the header row only
when the file does not yet exist; on an existing file initialization
changes nothing (so it is idempotent and never duplicates the header),
each append adds exactly one row (the row count only grows), and any
number of crawler runs against an initially missing file produce the
header exactly once, followed by all appended rows in order. -/
theorem c8_idempotent_store_init :
    init_csv_file none = some [headerRow]
    ∧ (∀ f, init_csv_file (some f) = some f)
    ∧ (∀ fs, init_csv_file (init_csv_file fs) = init_csv_file fs)
    ∧ (∀ fs r, rowCount (append_to_csv r fs) = rowCount fs + 1)
    ∧ (∀ fs, rowCount fs ≤ rowCount (init_csv_file fs))
    ∧ (∀ (rows : List (List String)) (rest : List (List (List String))),
        crawler_runs (rows :: rest) none = some (headerRow :: (rows :: rest).flatten)) := by
  have happend : ∀ (rows : List (List String)) (f : List (List String)),
      rows.foldl (fun s r => append_to_csv r s) (some f) = some (f ++ rows) := by
    intro rows
    induction rows with
    | nil => intro f; simp
    | cons r rows ih =>
      intro f
      rw [List.foldl_cons]
      show rows.foldl (fun s r => append_to_csv r s) (some (f ++ [r])) = _
      rw [ih]
      simp
  have hrun_some : ∀ (rows : List (List String)) (f : List (List String)),
      crawler_run rows (some f) = some (f ++ rows) := by
    intro rows f
    rw [crawler_run]
    exact happend rows f
  have hruns_some : ∀ (runs : List (List (List String))) (f : List (List String)),
      crawler_runs runs (some f) = some (f ++ runs.flatten) := by
    intro runs
    induction runs with
    | nil => intro f; simp [crawler_runs]
    | cons rows rest ih =>
      intro f
      rw [crawler_runs, List.foldl_cons]
      show crawler_runs rest (crawler_run rows (some f)) = _
      rw [hrun_some, ih]
      simp [List.flatten]
  refine ⟨rfl, fun f => rfl, fun fs => by cases fs <;> rfl,
    fun fs r => by cases fs <;> simp [append_to_csv, rowCount],
    fun fs => by cases fs <;> simp [init_csv_file, rowCount], ?_⟩
  intro rows rest
  rw [crawler_runs, List.foldl_cons]
  show crawler_runs rest (crawler_run rows none) = _
  have h1 : crawler_run rows none = some (headerRow :: rows) := by
    rw [crawler_run]
    show rows.foldl (fun s r => append_to_csv r s) (some [headerRow]) = _
    rw [happend]
    simp
  rw [h1, hruns_some]
  simp [List.flatten]

/-! ## Model validation

Concrete evaluations of the embedded matcher, checked against the
behaviour of CPython's `re` module on the same inputs (including the
backtracking-sensitive cases: left-biased alternation stopping inside
"Street", greedy whitespace before a failed optional group, and the
trailing negative lookahead forcing backtracking). -/

example : check_address_in_text basePatterns "835 E. 14th St" = (true, some "835 E. 14th St") := by decide
example : check_address_in_text basePatterns "Welcome" = (false, none) := by decide
example : check_address_in_text_fast "14735" juniperPatterns "14735 Juniper St" =
    (true, some "14735 Juniper St") := by decide
example : check_address_in_text_fast "14735" juniperPatterns "14735 Juniper Street, town" =
    (true, some "14735 Juniper Street") := by decide
example : check_address_in_text basePatterns "call 835  14th now" = (true, some "835  14th") := by decide
example : check_address_in_text basePatterns "835 E. 14th Street" = (true, some "835 E. 14th") := by decide
example : check_address_in_text basePatterns "835 east 14TH st." = (true, some "835 east 14TH st.") := by decide
example : check_address_in_text basePatterns "x835e14 y" = (true, some "835e14") := by decide
example : check_address_in_text basePatterns "835 E 14thx" = (false, none) := by decide
example : check_address_in_text basePatterns "835 14 St" = (false, none) := by decide
example : check_address_in_text basePatterns "835\t\n14th." = (true, some "835\t\n14th") := by decide
example : check_address_in_text_fast "14735" juniperPatterns "14735 N. Juniper Street" =
    (true, some "14735 N. Juniper St") := by decide
example : check_address_in_text_fast "14735" juniperPatterns "14735  N Juniper Ave" =
    (true, some "14735  N Juniper ") := by decide
example : check_address_in_text_fast "14735" juniperPatterns "14735 Junipers" =
    (true, some "14735 Juniper") := by decide
example : check_address_in_text_fast "14735" juniperPatterns "x14735Juniper#" =
    (true, some "14735Juniper") := by decide
example : check_address_in_text basePatterns
    "located at 835 East 14th Street, San Leandro" = (true, some "835 East 14th St") := by decide

-- Concrete evaluations of the crawl-loop model on the test environments.
example : (crawl_site w6 3 (initState w6)).state.findings = [scenFinding] := by decide
example : (crawl_site w6 3 (initState w6)).outcome = .completed := by decide
example : ∀ st ∈ runStates w6 3 (initState w6), "https://www.slusd.us/doc.pdf" ∉ st.queue := by decide
example : sleepSep false (run w9 5 (initState w9)).evs = false := by decide
example : (run w9 5 (initState w9)).evs =
    [.dequeue "r", .sleep, .dequeue "a", .dequeue "b", .sleep] := by decide
example : mainEvents w4 10 = [.dequeue "r", .summary] := by decide
